import Mathlib

/-!
Shallow embedding of `src/build_queue.rs` (docs.rs build queue).

The durable Postgres state (the `queue` table, the two metrics counters, the
`config` key/value entries) is modelled as an explicit record `BQState` that
every operation threads through.  Database statements that cannot fail in the
model (the store itself is assumed reachable) are embedded as total functions;
the only fallibility kept is the one the code handles explicitly: the
callback passed to `process_next_crate` and the operations wrapped by `retry`.
`report_error` is modelled as a counter increment (`reported`).
-/

/-- Mirrors the Rust struct `QueuedCrate` (src/build_queue.rs lines 17-25):
the data handed to the `process_next_crate` callback.  Note the source struct
has no `attempt` field. -/
structure QueuedCrate where
  id : Int
  name : String
  version : String
  priority : Int
  registry : Option String
deriving DecidableEq

/-- One row of the `queue` table: columns `id, name, version, priority,
attempt, registry` (see the SQL in `add_crate` and `process_next_crate`). -/
structure QueueRow where
  id : Int
  name : String
  version : String
  priority : Int
  attempt : Int
  registry : Option String
deriving DecidableEq

/-- Projection of a queue row to the `QueuedCrate` struct built in
`process_next_crate` (lines 158-164): all columns except `attempt`. -/
def QueueRow.toCrate (r : QueueRow) : QueuedCrate :=
  ⟨r.id, r.name, r.version, r.priority, r.registry⟩

/-- The config key/value table, restricted to the two keys this module uses:
`ConfigName::QueueLocked` (absent modelled as `false`, matching the
`unwrap_or(false)` in `is_locked`) and `ConfigName::LastSeenIndexReference`. -/
structure ConfigStore where
  queueLocked : Bool
  lastSeenRef : Option String
deriving DecidableEq

/-- The durable state a `BuildQueue` operates on: the `queue` table (plus the
sequence that assigns fresh `id`s), the two metrics counters
(`metrics.total_builds`, `metrics.failed_builds`), a count of calls to
`report_error`, and the config table. -/
structure BQState where
  queue : List QueueRow
  nextId : Int
  totalBuilds : Nat
  failedBuilds : Nat
  reported : Nat
  config : ConfigStore
deriving DecidableEq

/-- Strict comparison realising the SQL `ORDER BY priority ASC, attempt ASC,
id ASC` of `process_next_crate` (line 153): lexicographic on
(priority, attempt, id). -/
def jobLtB (a b : QueueRow) : Bool :=
  decide (a.priority < b.priority) ||
    (decide (a.priority = b.priority) &&
      (decide (a.attempt < b.attempt) ||
        (decide (a.attempt = b.attempt) && decide (a.id < b.id))))

/-- Keep the smaller of two rows under `jobLtB` (the earlier one on a tie). -/
def selMin (a b : QueueRow) : QueueRow :=
  if jobLtB b a then b else a

/-- Rows visible to selection: `WHERE attempt < $1` with `$1 = max_attempts`. -/
def pendingFilter (maxAttempts : Int) (q : List QueueRow) : List QueueRow :=
  q.filter (fun r => r.attempt < maxAttempts)

/-- The `SELECT ... WHERE attempt < $1 ORDER BY priority ASC, attempt ASC,
id ASC LIMIT 1` of `process_next_crate` (lines 148-157): the minimal pending
row under the total order, `none` on an empty candidate set. -/
def selectNext (maxAttempts : Int) (q : List QueueRow) : Option QueueRow :=
  match pendingFilter maxAttempts q with
  | [] => none
  | x :: xs => some (xs.foldl selMin x)

/-- Embeds `BuildQueue::add_crate` (lines 70-88): `INSERT INTO queue ... ON
CONFLICT (name, version) DO UPDATE SET priority = EXCLUDED.priority,
registry = EXCLUDED.registry, attempt = 0`.  A fresh row receives the next
sequence value as `id`. -/
def add_crate (st : BQState) (name version : String) (priority : Int)
    (registry : Option String) : BQState :=
  if st.queue.any (fun r => r.name == name && r.version == version) then
    { st with
      queue := st.queue.map (fun r =>
        if r.name == name && r.version == version then
          { r with priority := priority, registry := registry, attempt := 0 }
        else r) }
  else
    { st with
      queue := st.queue ++ [⟨st.nextId, name, version, priority, 0, registry⟩],
      nextId := st.nextId + 1 }

/-- Result of `process_next_crate`: the state after commit, the crate the
callback was invoked on (if any), and the function's own `Result<()>`. -/
structure PNCOut where
  state : BQState
  processed : Option QueuedCrate
  ret : Except String Unit

/-- Embeds `BuildQueue::process_next_crate` (lines 135-200).  Selection uses
`selectNext`; `None` returns `Ok(())` untouched (line 166).  Otherwise the
callback runs (it may mutate config state through `&self`, e.g. `lock`, but
holds no handle on the locked row), `metrics.total_builds` is incremented,
and then: on `Ok` the row is deleted (`DELETE FROM queue WHERE id = $1`); on
`Err` the row's attempt is incremented (`UPDATE ... RETURNING attempt`, a
`query_one` that fails if the row is gone), `metrics.failed_builds` is
incremented when the returned attempt is `>= max_attempts`, and the error is
passed to `report_error`.  Both branches commit and return `Ok(())`. -/
def process_next_crate (maxAttempts : Int)
    (f : QueuedCrate → BQState → BQState × Except String Unit)
    (st : BQState) : PNCOut :=
  match selectNext maxAttempts st.queue with
  | none => ⟨st, none, .ok ()⟩
  | some j =>
    let crate := j.toCrate
    let fr : BQState × Except String Unit := f crate st
    let st2 := { fr.1 with totalBuilds := fr.1.totalBuilds + 1 }
    match fr.2 with
    | .ok _ =>
      ⟨{ st2 with
          queue := st2.queue.filter (fun r : QueueRow => r.id != crate.id) },
        some crate, .ok ()⟩
    | .error _ =>
      match st2.queue.find? (fun r => r.id == crate.id) with
      | none => ⟨st2, some crate, .error "query_one returned no rows"⟩
      | some row =>
        let newAttempt := row.attempt + 1
        let st3 := { st2 with
          queue := st2.queue.map (fun r : QueueRow =>
            if r.id == crate.id then { r with attempt := r.attempt + 1 }
            else r) }
        let st4 :=
          if maxAttempts ≤ newAttempt then
            { st3 with failedBuilds := st3.failedBuilds + 1 }
          else st3
        ⟨{ st4 with reported := st4.reported + 1 }, some crate, .ok ()⟩

/-- Embeds `BuildQueue::is_locked` (lines 206-210). -/
def is_locked (st : BQState) : Bool :=
  st.config.queueLocked

/-- Embeds `BuildQueue::lock` (lines 213-216): set the `QueueLocked` config
flag.  Runs on its own connection, so it persists independently of any open
`process_next_crate` transaction. -/
def lock (st : BQState) : BQState :=
  { st with config := { st.config with queueLocked := true } }

/-- Embeds `BuildQueue::unlock` (lines 219-222). -/
def unlock (st : BQState) : BQState :=
  { st with config := { st.config with queueLocked := false } }

/-- Embeds `BuildQueue::set_last_seen_reference` (lines 60-68). -/
def set_last_seen_reference (st : BQState) (oid : String) : BQState :=
  { st with config := { st.config with lastSeenRef := some oid } }

/-- Core loop of the free function `retry` (lines 225-246), with the mutable
closure modelled as a map from the 1-based attempt number to that call's
result.  `rem` counts the retries still allowed (`max_attempts + 1 - attempt`);
the Rust guard `attempt > max_attempts` is exactly `rem = 0`.  Returns the
final result, the number of calls made, and the list of backoff sleeps
(`2^attempt` seconds before attempt `attempt + 1`), in order. -/
def retryAux {E T : Type} (f : Nat → Except E T) (attempt rem : Nat) :
    Except E T × Nat × List Nat :=
  match f attempt with
  | .ok t => (.ok t, attempt, [])
  | .error e =>
    match rem with
    | 0 => (.error e, attempt, [])
    | r + 1 =>
      let rest := retryAux f (attempt + 1) r
      (rest.1, rest.2.1, 2 ^ attempt :: rest.2.2)

/-- Embeds `retry(f, max_attempts)` (lines 225-246): attempts are numbered
from 1. -/
def retry {E T : Type} (f : Nat → Except E T) (max_attempts : Nat) :
    Except E T × Nat × List Nat :=
  retryAux f 1 max_attempts

/-- The `crates_index_diff::Change` variants handled by `get_new_crates`
(lines 262-323). -/
inductive Change where
  | Yanked (name version : String)
  | Added (name version : String)
  | Deleted (name : String)
deriving DecidableEq

/-- The external collaborators `get_new_crates` calls per event, modelled as
oracles: `get_crate_priority` (whose own lookup is treated as infallible, its
failure being propagated by `?` in the source and out of scope of the per-event
handling), and the success/failure of the fallible per-event operations
(`add_crate`'s insert, the yank `UPDATE`, and `delete_crate`). -/
structure IngestOracle where
  priorityFor : String → Int
  addFails : String → String → Bool
  yankFails : String → String → Bool
  deleteFails : String → Bool

/-- The data `get_new_crates` obtains from the `Index`: `peek_changes()`
yields the ordered change batch and the new cursor `oid`; `repository_url()`
is the registry passed to `add_crate`. -/
structure IndexModel where
  changes : List Change
  oid : String
  repositoryUrl : Option String

/-- One iteration of the `for change in &changes` loop of `get_new_crates`
(lines 262-324), acting on `(state, crates_added)`.  A failing operation is
`report_error`ed (counter increment) and leaves everything else unchanged;
`Yanked` and `Deleted` touch only collaborators outside the queue state. -/
def applyChange (oracle : IngestOracle) (registryUrl : Option String)
    (acc : BQState × Nat) (c : Change) : BQState × Nat :=
  let st := acc.1
  match c with
  | .Yanked n v =>
    if oracle.yankFails n v then ({ st with reported := st.reported + 1 }, acc.2)
    else (st, acc.2)
  | .Added n v =>
    let priority := oracle.priorityFor n
    if oracle.addFails n v then ({ st with reported := st.reported + 1 }, acc.2)
    else (add_crate st n v priority registryUrl, acc.2 + 1)
  | .Deleted n =>
    if oracle.deleteFails n then ({ st with reported := st.reported + 1 }, acc.2)
    else (st, acc.2)

/-- Embeds `BuildQueue::get_new_crates` (lines 253-336): reverse the batch
(line 260), process every event, then persist the cursor in the config store
(`set_last_seen_reference`, line 329) and in the provider's own bookmark
(`diff.set_last_seen_reference`, line 333).  Returns the final state, the
bookmark written to the provider, and `crates_added`. -/
def get_new_crates (oracle : IngestOracle) (index : IndexModel) (st : BQState) :
    BQState × Option String × Nat :=
  let changes := index.changes.reverse
  let res := changes.foldl (applyChange oracle index.repositoryUrl) (st, 0)
  let st2 := set_last_seen_reference res.1 index.oid
  (st2, some index.oid, res.2)

/-- Mirrors `crate::docbuilder::PackageKind` as used in
`build_next_queue_package` (lines 346-350). -/
inductive PackageKind where
  | Registry (url : String)
  | CratesIo
deriving DecidableEq

/-- The `RustwideBuilder` collaborator of `build_next_queue_package`, with
each fallible method modelled as an oracle; `update_toolchain` and
`purge_caches` are indexed by the 1-based attempt number of the `retry`
wrapper around them. -/
structure BuilderOracle where
  toolchain : Nat → Except String Bool
  purge : Nat → Except String Unit
  build : String → String → PackageKind → Except String Unit

/-- The closure `build_next_queue_package` passes to `process_next_crate`
(lines 343-385): derive the package kind from `registry`; run
`retry(update_toolchain, 3)` — on final failure report, `lock` the queue and
return the error; on `Ok(true)` run `retry(purge_caches, 3)` with the same
failure handling; otherwise invoke `build_package` and propagate its result. -/
def bnqpCallback (builder : BuilderOracle) (krate : QueuedCrate)
    (st : BQState) : BQState × Except String Unit :=
  let kind := match krate.registry with
    | some r => PackageKind.Registry r
    | none => PackageKind.CratesIo
  match (retry builder.toolchain 3).1 with
  | .error err => (lock { st with reported := st.reported + 1 }, .error err)
  | .ok true =>
    match (retry builder.purge 3).1 with
    | .error err => (lock { st with reported := st.reported + 1 }, .error err)
    | .ok _ => (st, builder.build krate.name krate.version kind)
  | .ok false => (st, builder.build krate.name krate.version kind)

/-- Embeds `BuildQueue::build_next_queue_package` (lines 341-388): run
`process_next_crate` with `bnqpCallback`; the `processed` flag the Rust code
sets at the top of the closure is `true` exactly when a crate was selected.
A failure of `process_next_crate` itself propagates through `?`. -/
def build_next_queue_package (maxAttempts : Int) (builder : BuilderOracle)
    (st : BQState) : BQState × Except String Bool :=
  let out := process_next_crate maxAttempts (bnqpCallback builder) st
  match out.ret with
  | .error e => (out.state, .error e)
  | .ok _ => (out.state, .ok out.processed.isSome)

@[simp] lemma toCrate_id (r : QueueRow) : r.toCrate.id = r.id := rfl

@[simp] lemma toCrate_name (r : QueueRow) : r.toCrate.name = r.name := rfl

@[simp] lemma toCrate_version (r : QueueRow) : r.toCrate.version = r.version := rfl

@[simp] lemma toCrate_priority (r : QueueRow) : r.toCrate.priority = r.priority := rfl

@[simp] lemma toCrate_registry (r : QueueRow) : r.toCrate.registry = r.registry := rfl

lemma jobLtB_iff (a b : QueueRow) :
    jobLtB a b = true ↔
      (a.priority < b.priority ∨
        (a.priority = b.priority ∧
          (a.attempt < b.attempt ∨ (a.attempt = b.attempt ∧ a.id < b.id)))) := by
  simp [jobLtB]

lemma jobLtB_self (a : QueueRow) : jobLtB a a = false := by
  cases h : jobLtB a a
  · rfl
  · rw [jobLtB_iff] at h; omega

lemma jobLtB_asymm {a b : QueueRow} (h : jobLtB a b = true) : jobLtB b a = false := by
  cases hc : jobLtB b a
  · rfl
  · rw [jobLtB_iff] at h hc; omega

lemma jobLtB_le_lt_trans {a b c : QueueRow} (h1 : jobLtB a b = false)
    (h2 : jobLtB a c = true) : jobLtB b c = true := by
  have h1' : ¬(jobLtB a b = true) := by simp [h1]
  rw [jobLtB_iff] at h1' h2 ⊢
  omega

lemma jobLtB_total {a b : QueueRow} (h1 : jobLtB a b = false)
    (h2 : jobLtB b a = false) :
    a.priority = b.priority ∧ a.attempt = b.attempt ∧ a.id = b.id := by
  have h1' : ¬(jobLtB a b = true) := by simp [h1]
  have h2' : ¬(jobLtB b a = true) := by simp [h2]
  rw [jobLtB_iff] at h1' h2'
  omega

lemma foldl_selMin_mem (xs : List QueueRow) : ∀ a : QueueRow,
    xs.foldl selMin a = a ∨ xs.foldl selMin a ∈ xs := by
  induction xs with
  | nil => intro a; exact Or.inl rfl
  | cons h t ih =>
    intro a
    simp only [List.foldl_cons]
    have hsel : selMin a h = a ∨ selMin a h = h := by
      unfold selMin; split
      · exact Or.inr rfl
      · exact Or.inl rfl
    rcases ih (selMin a h) with hm | hm
    · rcases hsel with hs | hs
      · exact Or.inl (hm.trans hs)
      · exact Or.inr (by rw [hm, hs]; exact List.mem_cons_self h t)
    · exact Or.inr (List.mem_cons_of_mem h hm)

lemma foldl_selMin_not_lt (xs : List QueueRow) : ∀ a y : QueueRow,
    (y = a ∨ y ∈ xs) → jobLtB y (xs.foldl selMin a) = false := by
  induction xs with
  | nil =>
    intro a y hy
    rcases hy with rfl | hy
    · exact jobLtB_self y
    · cases hy
  | cons h t ih =>
    intro a y hy
    simp only [List.foldl_cons]
    have key : jobLtB a (selMin a h) = false ∧ jobLtB h (selMin a h) = false := by
      cases hc : jobLtB h a
      · have hs : selMin a h = a := by simp [selMin, hc]
        rw [hs]
        exact ⟨jobLtB_self a, hc⟩
      · have hs : selMin a h = h := by simp [selMin, hc]
        rw [hs]
        exact ⟨jobLtB_asymm hc, jobLtB_self h⟩
    have hmin : jobLtB (selMin a h) (t.foldl selMin (selMin a h)) = false :=
      ih (selMin a h) (selMin a h) (Or.inl rfl)
    have hym : jobLtB y (selMin a h) = false ∨ y ∈ t := by
      rcases hy with rfl | hy
      · exact Or.inl key.1
      · rcases List.mem_cons.mp hy with rfl | hyt
        · exact Or.inl key.2
        · exact Or.inr hyt
    rcases hym with hym | hyt
    · cases hres : jobLtB y (t.foldl selMin (selMin a h))
      · rfl
      · have hlt := jobLtB_le_lt_trans hym hres
        rw [hmin] at hlt
        exact Bool.noConfusion hlt
    · exact ih (selMin a h) y (Or.inr hyt)

lemma selectNext_spec {maxAttempts : Int} {q : List QueueRow} {j : QueueRow}
    (h : selectNext maxAttempts q = some j) :
    (j ∈ q ∧ j.attempt < maxAttempts) ∧
      ∀ y ∈ q, y.attempt < maxAttempts → jobLtB y j = false := by
  unfold selectNext at h
  cases hp : pendingFilter maxAttempts q with
  | nil => rw [hp] at h; cases h
  | cons x xs =>
    rw [hp] at h
    injection h with h
    subst h
    constructor
    · have hmem : xs.foldl selMin x ∈ pendingFilter maxAttempts q := by
        rw [hp]
        rcases foldl_selMin_mem xs x with hm | hm
        · rw [hm]; exact List.mem_cons_self x xs
        · exact List.mem_cons_of_mem x hm
      unfold pendingFilter at hmem
      have := List.mem_filter.mp hmem
      exact ⟨this.1, by simpa using this.2⟩
    · intro y hyq hyp
      have hy : y ∈ pendingFilter maxAttempts q := by
        unfold pendingFilter
        exact List.mem_filter.mpr ⟨hyq, by simpa using hyp⟩
      rw [hp] at hy
      exact foldl_selMin_not_lt xs x y (List.mem_cons.mp hy)

lemma selectNext_eq_none {maxAttempts : Int} {q : List QueueRow}
    (h : ∀ r ∈ q, ¬(r.attempt < maxAttempts)) :
    selectNext maxAttempts q = none := by
  unfold selectNext
  have hp : pendingFilter maxAttempts q = [] := by
    unfold pendingFilter
    rw [List.filter_eq_nil_iff]
    intro a ha
    simpa using h a ha
  rw [hp]

lemma id_inj {q : List QueueRow} (hids : (q.map QueueRow.id).Nodup)
    {a b : QueueRow} (ha : a ∈ q) (hb : b ∈ q) (h : a.id = b.id) : a = b :=
  List.inj_on_of_nodup_map hids ha hb h

lemma find_by_id {q : List QueueRow} (hids : (q.map QueueRow.id).Nodup)
    {j : QueueRow} (hj : j ∈ q) :
    q.find? (fun r => r.id == j.id) = some j := by
  induction q with
  | nil => cases hj
  | cons h t ih =>
    rw [List.map_cons, List.nodup_cons] at hids
    rcases List.mem_cons.mp hj with rfl | hjt
    · rw [List.find?_cons_of_pos]
      simp
    · have hid : h.id ≠ j.id := by
        intro he
        exact hids.1 (by rw [he]; exact List.mem_map_of_mem QueueRow.id hjt)
      rw [List.find?_cons_of_neg]
      · exact ih hids.2 hjt
      · simp [hid]

lemma pnc_none {maxAttempts : Int}
    {f : QueuedCrate → BQState → BQState × Except String Unit} {st : BQState}
    (hsel : selectNext maxAttempts st.queue = none) :
    process_next_crate maxAttempts f st = ⟨st, none, .ok ()⟩ := by
  unfold process_next_crate
  rw [hsel]

lemma pnc_ok {maxAttempts : Int}
    {f : QueuedCrate → BQState → BQState × Except String Unit}
    {st st1 : BQState} {j : QueueRow}
    (hsel : selectNext maxAttempts st.queue = some j)
    (hf : f j.toCrate st = (st1, .ok ())) :
    process_next_crate maxAttempts f st =
      ⟨{ st1 with
          totalBuilds := st1.totalBuilds + 1,
          queue := st1.queue.filter (fun r : QueueRow => r.id != j.id) },
        some j.toCrate, .ok ()⟩ := by
  unfold process_next_crate
  rw [hsel]
  simp only [hf, toCrate_id]

lemma pnc_err {maxAttempts : Int}
    {f : QueuedCrate → BQState → BQState × Except String Unit}
    {st st1 : BQState} {j : QueueRow} {e : String}
    (hids : (st.queue.map QueueRow.id).Nodup)
    (hsel : selectNext maxAttempts st.queue = some j)
    (hf : f j.toCrate st = (st1, .error e))
    (hframe : st1.queue = st.queue) :
    process_next_crate maxAttempts f st =
      ⟨{ st1 with
          totalBuilds := st1.totalBuilds + 1,
          queue := st.queue.map (fun r : QueueRow =>
            if r.id == j.id then { r with attempt := r.attempt + 1 } else r),
          failedBuilds := st1.failedBuilds +
            (if maxAttempts ≤ j.attempt + 1 then 1 else 0),
          reported := st1.reported + 1 },
        some j.toCrate, .ok ()⟩ := by
  have hj : j ∈ st.queue := (selectNext_spec hsel).1.1
  have hfind : st.queue.find? (fun r => r.id == j.id) = some j :=
    find_by_id hids hj
  unfold process_next_crate
  rw [hsel]
  simp only [hf, toCrate_id, hframe, hfind]
  by_cases hc : maxAttempts ≤ j.attempt + 1
  · simp [hc]
  · simp [hc]

lemma retryAux_all_fail {E T : Type} (f : Nat → Except E T) :
    ∀ (rem attempt : Nat),
      (∀ i, attempt ≤ i → i ≤ attempt + rem → ∃ e, f i = .error e) →
      ∃ e, f (attempt + rem) = Except.error e ∧
        retryAux f attempt rem =
          (.error e, attempt + rem,
            (List.range rem).map (fun i => 2 ^ (attempt + i))) := by
  intro rem
  induction rem with
  | zero =>
    intro attempt h
    obtain ⟨e, he⟩ := h attempt le_rfl (by omega)
    refine ⟨e, by simpa using he, ?_⟩
    simp [retryAux, he]
  | succ r ih =>
    intro attempt h
    obtain ⟨e0, he0⟩ := h attempt le_rfl (by omega)
    obtain ⟨e, he, hr⟩ := ih (attempt + 1) (fun i h1 h2 => h i (by omega) (by omega))
    refine ⟨e, by rw [show attempt + (r + 1) = attempt + 1 + r by omega]; exact he, ?_⟩
    have hsleep : (List.range (r + 1)).map (fun i => 2 ^ (attempt + i)) =
        2 ^ attempt :: (List.range r).map (fun i => 2 ^ (attempt + 1 + i)) := by
      rw [List.range_succ_eq_map, List.map_cons, List.map_map]
      refine congrArg₂ List.cons (by rw [Nat.add_zero]) ?_
      apply List.map_congr_left
      intro i _
      simp only [Function.comp_apply]
      congr 1
      omega
    unfold retryAux
    rw [he0]
    simp only [hr]
    rw [hsleep, show attempt + (r + 1) = attempt + 1 + r by omega]

lemma retryAux_first_ok {E T : Type} (f : Nat → Except E T) :
    ∀ (rem attempt k : Nat) (t : T),
      attempt ≤ k → k ≤ attempt + rem → f k = .ok t →
      (∀ i, attempt ≤ i → i < k → ∃ e, f i = .error e) →
      retryAux f attempt rem =
        (.ok t, k, (List.range (k - attempt)).map (fun i => 2 ^ (attempt + i))) := by
  intro rem
  induction rem with
  | zero =>
    intro attempt k t h1 h2 hk hfail
    have hke : k = attempt := by omega
    subst hke
    simp [retryAux, hk]
  | succ r ih =>
    intro attempt k t h1 h2 hk hfail
    by_cases hek : attempt = k
    · subst hek
      simp [retryAux, hk]
    · obtain ⟨e0, he0⟩ := hfail attempt le_rfl (by omega)
      have hr := ih (attempt + 1) k t (by omega) (by omega) hk
        (fun i hi1 hi2 => hfail i (by omega) hi2)
      have hsleep : (List.range (k - attempt)).map (fun i => 2 ^ (attempt + i)) =
          2 ^ attempt ::
            (List.range (k - (attempt + 1))).map (fun i => 2 ^ (attempt + 1 + i)) := by
        rw [show k - attempt = (k - (attempt + 1)) + 1 by omega]
        rw [List.range_succ_eq_map, List.map_cons, List.map_map]
        refine congrArg₂ List.cons (by rw [Nat.add_zero]) ?_
        apply List.map_congr_left
        intro i _
        simp only [Function.comp_apply]
        congr 1
        omega
      unfold retryAux
      rw [he0]
      simp only [hr]
      rw [hsleep]

lemma retryAux_calls_le {E T : Type} (f : Nat → Except E T) :
    ∀ rem attempt, (retryAux f attempt rem).2.1 ≤ attempt + rem := by
  intro rem
  induction rem with
  | zero =>
    intro attempt
    unfold retryAux
    cases hf : f attempt <;> simp
  | succ r ih =>
    intro attempt
    unfold retryAux
    cases hf : f attempt with
    | ok t => simp
    | error e =>
      have := ih (attempt + 1)
      dsimp only
      omega

@[simp] lemma add_crate_reported (st : BQState) (n v : String) (p : Int)
    (reg : Option String) : (add_crate st n v p reg).reported = st.reported := by
  unfold add_crate; split <;> rfl

@[simp] lemma add_crate_config (st : BQState) (n v : String) (p : Int)
    (reg : Option String) : (add_crate st n v p reg).config = st.config := by
  unfold add_crate; split <;> rfl

/-- Whether a row with the given (name, version) key is in the queue table. -/
def containsKey (q : List QueueRow) (name version : String) : Bool :=
  q.any (fun r => r.name == name && r.version == version)

lemma any_key_map (q : List QueueRow) (g : QueueRow → QueueRow)
    (hg : ∀ r, (g r).name = r.name ∧ (g r).version = r.version)
    {n v : String} (h : q.any (fun r => r.name == n && r.version == v) = true) :
    (q.map g).any (fun r => r.name == n && r.version == v) = true := by
  obtain ⟨r0, hr0, hm⟩ := List.any_eq_true.mp h
  refine List.any_eq_true.mpr ⟨g r0, List.mem_map_of_mem g hr0, ?_⟩
  rw [(hg r0).1, (hg r0).2]
  exact hm

lemma upd_preserves_key (n v : String) (p : Int) (reg : Option String) :
    ∀ r : QueueRow,
      ((fun r : QueueRow =>
        if r.name == n && r.version == v then
          { r with priority := p, registry := reg, attempt := 0 }
        else r) r).name = r.name ∧
      ((fun r : QueueRow =>
        if r.name == n && r.version == v then
          { r with priority := p, registry := reg, attempt := 0 }
        else r) r).version = r.version := by
  intro r
  by_cases hm : (r.name == n && r.version == v) = true <;> simp [hm]

lemma add_crate_containsKey (st : BQState) (n v : String) (p : Int)
    (reg : Option String) :
    containsKey (add_crate st n v p reg).queue n v = true := by
  unfold add_crate containsKey
  cases hany : st.queue.any (fun r => r.name == n && r.version == v)
  · simp only [hany, Bool.false_eq_true, if_false]
    simp [List.any_append]
  · simpa using any_key_map st.queue _ (upd_preserves_key n v p reg) hany

lemma add_crate_preserves_key (st : BQState) (a b : String) (p : Int)
    (reg : Option String) {n v : String}
    (h : containsKey st.queue n v = true) :
    containsKey (add_crate st a b p reg).queue n v = true := by
  unfold add_crate containsKey
  unfold containsKey at h
  cases hany : st.queue.any (fun r => r.name == a && r.version == b)
  · simp only [hany, Bool.false_eq_true, if_false]
    simp [List.any_append, h]
  · simpa using any_key_map st.queue _ (upd_preserves_key a b p reg) h

lemma applyChange_preserves_key (oracle : IngestOracle) (url : Option String)
    (acc : BQState × Nat) (c : Change) {n v : String}
    (h : containsKey acc.1.queue n v = true) :
    containsKey (applyChange oracle url acc c).1.queue n v = true := by
  cases c with
  | Yanked a b =>
    simp only [applyChange]
    split <;> simpa using h
  | Deleted a =>
    simp only [applyChange]
    split <;> simpa using h
  | Added a b =>
    simp only [applyChange]
    cases hf : oracle.addFails a b
    · simp only [hf, Bool.false_eq_true, if_false]
      simpa using add_crate_preserves_key acc.1 a b (oracle.priorityFor a) url h
    · simpa using h

/-- An `Added` event the `add_crate` call of which succeeds: the events
counted by `crates_added`. -/
def isQueuedAdd (oracle : IngestOracle) (c : Change) : Bool :=
  match c with
  | .Added n v => !(oracle.addFails n v)
  | _ => false

/-- Whether the fallible per-event operation of an event fails (and is hence
`report_error`ed) under the oracle. -/
def eventFails (oracle : IngestOracle) (c : Change) : Bool :=
  match c with
  | .Yanked n v => oracle.yankFails n v
  | .Added n v => oracle.addFails n v
  | .Deleted n => oracle.deleteFails n

lemma applyChange_count (oracle : IngestOracle) (url : Option String)
    (st : BQState) (k : Nat) (c : Change) :
    (applyChange oracle url (st, k) c).2 =
      k + (if isQueuedAdd oracle c then 1 else 0) := by
  cases c with
  | Yanked a b =>
    cases hf : oracle.yankFails a b <;> simp [applyChange, isQueuedAdd, hf]
  | Deleted a =>
    cases hf : oracle.deleteFails a <;> simp [applyChange, isQueuedAdd, hf]
  | Added a b =>
    cases hf : oracle.addFails a b <;> simp [applyChange, isQueuedAdd, hf]

lemma applyChange_reported (oracle : IngestOracle) (url : Option String)
    (st : BQState) (k : Nat) (c : Change) :
    (applyChange oracle url (st, k) c).1.reported =
      st.reported + (if eventFails oracle c then 1 else 0) := by
  cases c with
  | Yanked a b =>
    cases hf : oracle.yankFails a b <;> simp [applyChange, eventFails, hf]
  | Deleted a =>
    cases hf : oracle.deleteFails a <;> simp [applyChange, eventFails, hf]
  | Added a b =>
    cases hf : oracle.addFails a b <;> simp [applyChange, eventFails, hf]

lemma foldl_applyChange_count (oracle : IngestOracle) (url : Option String) :
    ∀ (cs : List Change) (st : BQState) (k : Nat),
      (cs.foldl (applyChange oracle url) (st, k)).2 =
        k + cs.countP (isQueuedAdd oracle) := by
  intro cs
  induction cs with
  | nil => intro st k; simp
  | cons c t ih =>
    intro st k
    rw [List.foldl_cons, List.countP_cons]
    have hstep := applyChange_count oracle url st k c
    have hrec := ih (applyChange oracle url (st, k) c).1
      (applyChange oracle url (st, k) c).2
    rw [Prod.mk.eta] at hrec
    rw [hrec, hstep]
    by_cases hq : isQueuedAdd oracle c = true <;> simp [hq] <;> omega

lemma foldl_applyChange_reported (oracle : IngestOracle) (url : Option String) :
    ∀ (cs : List Change) (st : BQState) (k : Nat),
      (cs.foldl (applyChange oracle url) (st, k)).1.reported =
        st.reported + cs.countP (eventFails oracle) := by
  intro cs
  induction cs with
  | nil => intro st k; simp
  | cons c t ih =>
    intro st k
    rw [List.foldl_cons, List.countP_cons]
    have hstep := applyChange_reported oracle url st k c
    have hrec := ih (applyChange oracle url (st, k) c).1
      (applyChange oracle url (st, k) c).2
    rw [Prod.mk.eta] at hrec
    rw [hrec, hstep]
    by_cases hq : eventFails oracle c = true <;> simp [hq] <;> omega

lemma foldl_applyChange_preserves_key (oracle : IngestOracle)
    (url : Option String) :
    ∀ (cs : List Change) (acc : BQState × Nat) {n v : String},
      containsKey acc.1.queue n v = true →
      containsKey (cs.foldl (applyChange oracle url) acc).1.queue n v = true := by
  intro cs
  induction cs with
  | nil => intro acc n v h; exact h
  | cons c t ih =>
    intro acc n v h
    rw [List.foldl_cons]
    exact ih _ (applyChange_preserves_key oracle url acc c h)

lemma foldl_applyChange_adds (oracle : IngestOracle) (url : Option String) :
    ∀ (cs : List Change) (st : BQState) (k : Nat) (n v : String),
      Change.Added n v ∈ cs → oracle.addFails n v = false →
      containsKey (cs.foldl (applyChange oracle url) (st, k)).1.queue n v
        = true := by
  intro cs
  induction cs with
  | nil => intro st k n v h _; cases h
  | cons c t ih =>
    intro st k n v hmem hfail
    rw [List.foldl_cons]
    rcases List.mem_cons.mp hmem with rfl | hmt
    · have hkey :
          containsKey (applyChange oracle url (st, k) (Change.Added n v)).1.queue
            n v = true := by
        simp only [applyChange, hfail, Bool.false_eq_true, if_false]
        exact add_crate_containsKey st n v (oracle.priorityFor n) url
      exact foldl_applyChange_preserves_key oracle url t _ hkey
    · have hrec := ih (applyChange oracle url (st, k) c).1
        (applyChange oracle url (st, k) c).2 n v hmt hfail
      rwa [Prod.mk.eta] at hrec

lemma pnc_processed (maxAttempts : Int)
    (f : QueuedCrate → BQState → BQState × Except String Unit) (st : BQState) :
    (process_next_crate maxAttempts f st).processed =
      (selectNext maxAttempts st.queue).map QueueRow.toCrate := by
  cases hsel : selectNext maxAttempts st.queue with
  | none => rw [pnc_none hsel]; rfl
  | some j =>
    rcases hf : f j.toCrate st with ⟨st1, r⟩
    cases r with
    | ok u =>
      cases u
      rw [pnc_ok hsel hf]
      simp
    | error e =>
      simp only [process_next_crate, hsel, hf]
      split <;> simp

/-- The trivial always-succeeding callback (the shape of the test callbacks in
the source's `assert_next`). -/
def okCallback : QueuedCrate → BQState → BQState × Except String Unit :=
  fun _ st => (st, .ok ())

/-- C1: for every queue state, `process_next_crate` selects the unique
pending job (attempt < max_attempts) minimal under ascending priority, then
ascending attempt, then ascending id; hence with pairwise-distinct priorities
and a succeeding callback, two consecutive selections have strictly ascending
priority (which iterates to full runs, the callback deleting each selected
row). -/
theorem process_next_crate_selects_minimum
    (maxAttempts : Int) (st : BQState) (j : QueueRow)
    (hids : (st.queue.map QueueRow.id).Nodup)
    (hsel : selectNext maxAttempts st.queue = some j) :
    (j ∈ st.queue ∧ j.attempt < maxAttempts ∧
      ∀ r ∈ st.queue, r.attempt < maxAttempts → r ≠ j → jobLtB j r = true) ∧
    (∀ f, (process_next_crate maxAttempts f st).processed = some j.toCrate) ∧
    ((∀ a ∈ st.queue, ∀ b ∈ st.queue, a ≠ b → a.priority ≠ b.priority) →
      ∀ j2, selectNext maxAttempts
          (process_next_crate maxAttempts okCallback st).state.queue = some j2 →
        j.priority < j2.priority) := by
  obtain ⟨⟨hjm, hjp⟩, hmin⟩ := selectNext_spec hsel
  refine ⟨⟨hjm, hjp, ?_⟩, ?_, ?_⟩
  · intro r hr hrp hne
    have h1 := hmin r hr hrp
    cases h2 : jobLtB j r
    · have heq := jobLtB_total h1 h2
      exact absurd (id_inj hids hr hjm heq.2.2) hne
    · rfl
  · intro f
    rw [pnc_processed, hsel]
    rfl
  · intro hdp j2 hsel2
    have hout := pnc_ok hsel
      (rfl : okCallback j.toCrate st = (st, Except.ok ()))
    rw [hout] at hsel2
    dsimp only at hsel2
    obtain ⟨⟨hj2m, hj2p⟩, _⟩ := selectNext_spec hsel2
    rcases List.mem_filter.mp hj2m with ⟨hj2q, hj2id⟩
    have hj2ne : j2 ≠ j := by
      intro he
      rw [he] at hj2id
      simp at hj2id
    have hprne : j2.priority ≠ j.priority := hdp j2 hj2q j hjm hj2ne
    have hnl : jobLtB j2 j = false := hmin j2 hj2q hj2p
    have hnl' : ¬(jobLtB j2 j = true) := by simp [hnl]
    rw [jobLtB_iff] at hnl'
    omega

/-- A two-row queue used as a concrete instance: distinct ids and priorities,
the lower `priority` value on the second row. -/
def wRowA : QueueRow := ⟨1, "low-a", "1.0.0", 5, 0, none⟩

def wRowB : QueueRow := ⟨2, "high-b", "1.0.0", 3, 0, none⟩

def wState1 : BQState := ⟨[wRowA, wRowB], 3, 0, 0, 0, ⟨false, none⟩⟩

theorem process_next_crate_selects_minimum_witness :
    ((wState1.queue.map QueueRow.id).Nodup ∧
      selectNext 5 wState1.queue = some wRowB) ∧
    ((wRowB ∈ wState1.queue ∧ wRowB.attempt < 5 ∧
        ∀ r ∈ wState1.queue, r.attempt < 5 → r ≠ wRowB → jobLtB wRowB r = true) ∧
      (∀ f, (process_next_crate 5 f wState1).processed = some wRowB.toCrate) ∧
      ((∀ a ∈ wState1.queue, ∀ b ∈ wState1.queue, a ≠ b →
          a.priority ≠ b.priority) →
        ∀ j2, selectNext 5
            (process_next_crate 5 okCallback wState1).state.queue = some j2 →
          wRowB.priority < j2.priority)) :=
  ⟨⟨by decide, by decide⟩,
    process_next_crate_selects_minimum 5 wState1 wRowB (by decide) (by decide)⟩

/-- C5: whenever the selection query of `process_next_crate` picks job `j`,
every other pending job whose priority value is ≤ `j`'s has an attempt count
≥ `j`'s; hence a job whose callback failed (its attempt now `a + 1`) is
selected again only once every pending job of equal-or-lower priority value
has been tried at least `a + 1` times. -/
theorem failed_job_yields_to_peers (maxAttempts : Int) (st : BQState)
    (j : QueueRow) (hsel : selectNext maxAttempts st.queue = some j) :
    ∀ r ∈ st.queue, r.attempt < maxAttempts → r.priority ≤ j.priority →
      j.attempt ≤ r.attempt := by
  intro r hr hrp hrpr
  have hnl : jobLtB r j = false := (selectNext_spec hsel).2 r hr hrp
  have hnl' : ¬(jobLtB r j = true) := by simp [hnl]
  rw [jobLtB_iff] at hnl'
  omega

/-- A queue where the previously failed row (attempt 1) shares its priority
with an untried row. -/
def wState2 : BQState :=
  ⟨[⟨1, "failed-once", "1.0.0", 0, 1, none⟩, ⟨2, "untried", "1.0.0", 0, 0, none⟩],
    3, 0, 0, 0, ⟨false, none⟩⟩

theorem failed_job_yields_to_peers_witness :
    selectNext 3 wState2.queue = some ⟨2, "untried", "1.0.0", 0, 0, none⟩ ∧
    (∀ r ∈ wState2.queue, r.attempt < 3 →
      r.priority ≤ (⟨2, "untried", "1.0.0", 0, 0, none⟩ : QueueRow).priority →
      (⟨2, "untried", "1.0.0", 0, 0, none⟩ : QueueRow).attempt ≤ r.attempt) :=
  ⟨by decide, failed_job_yields_to_peers 3 wState2 _ (by decide)⟩

/-- C8: on a queue with no pending row (empty, or every row at or beyond the
retry budget) `process_next_crate` returns `Ok(())` with the state untouched
and never invokes its callback: the very same output for every callback. -/
theorem process_next_crate_nothing_to_do (maxAttempts : Int) (st : BQState)
    (h : ∀ r ∈ st.queue, ¬(r.attempt < maxAttempts)) :
    ∀ f, process_next_crate maxAttempts f st = ⟨st, none, .ok ()⟩ :=
  fun _ => pnc_none (selectNext_eq_none h)

/-- A queue whose only row has exhausted the retry budget. -/
def wState3 : BQState :=
  ⟨[⟨1, "spent", "1.0.0", 0, 3, none⟩], 2, 3, 1, 3, ⟨false, none⟩⟩

theorem process_next_crate_nothing_to_do_witness :
    (∀ r ∈ wState3.queue, ¬(r.attempt < 3)) ∧
    (∀ f, process_next_crate 3 f wState3 = ⟨wState3, none, .ok ()⟩) :=
  ⟨by decide, process_next_crate_nothing_to_do 3 wState3 (by decide)⟩

/-- C2: for every selected job, a callback failure is caught:
`process_next_crate` still returns `Ok(())`, the job's attempt is incremented
by exactly one, and `metrics.failed_builds` is incremented exactly when the
post-increment attempt reaches the retry budget; on callback success the row
is deleted. -/
theorem process_next_crate_callback_failure
    (maxAttempts : Int) (st : BQState) (j : QueueRow)
    (f : QueuedCrate → BQState → BQState × Except String Unit)
    (hids : (st.queue.map QueueRow.id).Nodup)
    (hsel : selectNext maxAttempts st.queue = some j) :
    (∀ st1 e, f j.toCrate st = (st1, .error e) → st1.queue = st.queue →
      (process_next_crate maxAttempts f st).ret = .ok () ∧
      (∃ r ∈ (process_next_crate maxAttempts f st).state.queue,
        r.id = j.id ∧ r.attempt = j.attempt + 1) ∧
      (process_next_crate maxAttempts f st).state.failedBuilds =
        st1.failedBuilds + (if j.attempt + 1 = maxAttempts then 1 else 0)) ∧
    (∀ st1, f j.toCrate st = (st1, .ok ()) → st1.queue = st.queue →
      (process_next_crate maxAttempts f st).ret = .ok () ∧
      (process_next_crate maxAttempts f st).state.queue =
        st.queue.filter (fun r : QueueRow => r.id != j.id)) := by
  constructor
  · intro st1 e hf hframe
    have hout := pnc_err hids hsel hf hframe
    rw [hout]
    dsimp only
    refine ⟨rfl, ?_, ?_⟩
    · refine ⟨{ j with attempt := j.attempt + 1 }, ?_, rfl, rfl⟩
      have hjm : j ∈ st.queue := (selectNext_spec hsel).1.1
      have hbump : ({ j with attempt := j.attempt + 1 } : QueueRow) =
          (fun r : QueueRow =>
            if r.id == j.id then { r with attempt := r.attempt + 1 } else r) j := by
        simp
      rw [hbump]
      exact List.mem_map_of_mem _ hjm
    · have hcond : (maxAttempts ≤ j.attempt + 1) ↔ (j.attempt + 1 = maxAttempts) := by
        have := (selectNext_spec hsel).1.2
        omega
      by_cases hc : j.attempt + 1 = maxAttempts
      · rw [if_pos (hcond.mpr hc), if_pos hc]
      · rw [if_neg (fun hx => hc (hcond.mp hx)), if_neg hc]
  · intro st1 hf hframe
    have hout := pnc_ok hsel hf
    rw [hout]
    dsimp only
    exact ⟨rfl, by rw [hframe]⟩

/-- The always-failing callback (the shape of `assert_next_and_fail` in the
source's tests). -/
def errCallback : QueuedCrate → BQState → BQState × Except String Unit :=
  fun _ st => (st, .error "simulate a failure")

def wRow4 : QueueRow := ⟨7, "victim", "0.1.1", -2, 0, none⟩

def wState4 : BQState :=
  ⟨[⟨6, "other", "0.1.1", 0, 0, none⟩, wRow4], 8, 0, 0, 0, ⟨false, none⟩⟩

theorem process_next_crate_callback_failure_witness :
    ((wState4.queue.map QueueRow.id).Nodup ∧
      selectNext 5 wState4.queue = some wRow4 ∧
      errCallback wRow4.toCrate wState4 = (wState4, .error "simulate a failure")) ∧
    ((process_next_crate 5 errCallback wState4).ret = .ok () ∧
      (∃ r ∈ (process_next_crate 5 errCallback wState4).state.queue,
        r.id = wRow4.id ∧ r.attempt = wRow4.attempt + 1) ∧
      (process_next_crate 5 errCallback wState4).state.failedBuilds =
        wState4.failedBuilds + (if wRow4.attempt + 1 = 5 then 1 else 0)) :=
  ⟨⟨by decide, by decide, rfl⟩,
    (process_next_crate_callback_failure 5 wState4 wRow4 errCallback
      (by decide) (by decide)).1 wState4 "simulate a failure" rfl rfl⟩

/-- C10: `process_next_crate` is frame-preserving: on a callback failure only
the selected row changes, and only its attempt field; on success only the
selected row disappears, every other row being untouched. -/
theorem process_next_crate_frame
    (maxAttempts : Int) (st : BQState) (j : QueueRow)
    (f : QueuedCrate → BQState → BQState × Except String Unit)
    (hids : (st.queue.map QueueRow.id).Nodup)
    (hsel : selectNext maxAttempts st.queue = some j) :
    (∀ st1 e, f j.toCrate st = (st1, .error e) → st1.queue = st.queue →
      (∀ r, r ∈ st.queue → r.id ≠ j.id →
        r ∈ (process_next_crate maxAttempts f st).state.queue) ∧
      (∀ r, r ∈ (process_next_crate maxAttempts f st).state.queue →
        r.id ≠ j.id → r ∈ st.queue) ∧
      (∀ r, r ∈ (process_next_crate maxAttempts f st).state.queue →
        r.id = j.id → r.name = j.name ∧ r.version = j.version ∧
          r.priority = j.priority ∧ r.registry = j.registry ∧
          r.attempt = j.attempt + 1)) ∧
    (∀ st1, f j.toCrate st = (st1, .ok ()) → st1.queue = st.queue →
      ∀ r, r ∈ (process_next_crate maxAttempts f st).state.queue ↔
        (r ∈ st.queue ∧ r.id ≠ j.id)) := by
  constructor
  · intro st1 e hf hframe
    have hout := pnc_err hids hsel hf hframe
    rw [hout]
    dsimp only
    refine ⟨?_, ?_, ?_⟩
    · intro r hr hrne
      have hgr : (if r.id == j.id then
          ({ r with attempt := r.attempt + 1 } : QueueRow) else r) = r := by
        simp [hrne]
      rw [← hgr]
      exact List.mem_map_of_mem _ hr
    · intro r hr hrne
      obtain ⟨r0, hr0, hgr0⟩ := List.mem_map.mp hr
      by_cases hid : r0.id = j.id
      · exfalso
        apply hrne
        rw [← hgr0]
        simp [hid]
      · have hgr : (if r0.id == j.id then
            ({ r0 with attempt := r0.attempt + 1 } : QueueRow) else r0) = r0 := by
          simp [hid]
        rw [← hgr0, hgr]
        exact hr0
    · intro r hr hrid
      obtain ⟨r0, hr0, hgr0⟩ := List.mem_map.mp hr
      by_cases hid : r0.id = j.id
      · have hr0j : r0 = j := id_inj hids hr0 (selectNext_spec hsel).1.1 hid
        subst hr0j
        rw [← hgr0]
        simp
      · exfalso
        have hgr : (if r0.id == j.id then
            ({ r0 with attempt := r0.attempt + 1 } : QueueRow) else r0) = r0 := by
          simp [hid]
        rw [← hgr0, hgr] at hrid
        exact hid hrid
  · intro st1 hf hframe
    have hout := pnc_ok hsel hf
    rw [hout]
    dsimp only
    intro r
    rw [hframe]
    simp [List.mem_filter, bne_iff_ne]

def wRow5 : QueueRow := ⟨3, "picked", "2.0.0", -5, 1, some "reg"⟩

def wState5 : BQState :=
  ⟨[wRow5, ⟨4, "kept", "2.0.0", 0, 0, none⟩], 5, 1, 0, 1, ⟨false, none⟩⟩

theorem process_next_crate_frame_witness :
    ((wState5.queue.map QueueRow.id).Nodup ∧
      selectNext 4 wState5.queue = some wRow5 ∧
      errCallback wRow5.toCrate wState5 = (wState5, .error "simulate a failure")) ∧
    ((∀ r, r ∈ wState5.queue → r.id ≠ wRow5.id →
        r ∈ (process_next_crate 4 errCallback wState5).state.queue) ∧
      (∀ r, r ∈ (process_next_crate 4 errCallback wState5).state.queue →
        r.id ≠ wRow5.id → r ∈ wState5.queue) ∧
      (∀ r, r ∈ (process_next_crate 4 errCallback wState5).state.queue →
        r.id = wRow5.id → r.name = wRow5.name ∧ r.version = wRow5.version ∧
          r.priority = wRow5.priority ∧ r.registry = wRow5.registry ∧
          r.attempt = wRow5.attempt + 1)) :=
  ⟨⟨by decide, by decide, rfl⟩,
    (process_next_crate_frame 4 wState5 wRow5 errCallback (by decide) (by decide)).1
      wState5 "simulate a failure" rfl rfl⟩

/-- C4: `retry` returns the first success of the operation; a failure of
attempt `n ≤ max_attempts` is followed by a `2^n`-second sleep before attempt
`n + 1`; once the operation has failed `max_attempts + 1` times the last
failure is returned; the operation is invoked at most `max_attempts + 1`
times. -/
theorem retry_spec {E T : Type} (f : Nat → Except E T) (max_attempts : Nat) :
    (∀ k t, 1 ≤ k → k ≤ max_attempts + 1 → f k = .ok t →
      (∀ i, 1 ≤ i → i < k → ∃ e, f i = .error e) →
      retry f max_attempts =
        (.ok t, k, (List.range (k - 1)).map (fun i => 2 ^ (1 + i)))) ∧
    ((∀ i, 1 ≤ i → i ≤ max_attempts + 1 → ∃ e, f i = .error e) →
      ∃ e, f (max_attempts + 1) = .error e ∧
        retry f max_attempts =
          (.error e, max_attempts + 1,
            (List.range max_attempts).map (fun i => 2 ^ (1 + i)))) ∧
    (retry f max_attempts).2.1 ≤ max_attempts + 1 := by
  refine ⟨?_, ?_, ?_⟩
  · intro k t h1 h2 hk hfail
    have hr := retryAux_first_ok f max_attempts 1 k t h1 (by omega) hk
      (fun i hi1 hi2 => hfail i hi1 hi2)
    unfold retry
    rw [hr]
  · intro hfail
    obtain ⟨e, he, hr⟩ := retryAux_all_fail f max_attempts 1
      (fun i hi1 hi2 => hfail i hi1 (by omega))
    refine ⟨e, by rwa [Nat.add_comm] at he, ?_⟩
    unfold retry
    rw [hr, Nat.add_comm 1 max_attempts]
  · have := retryAux_calls_le f max_attempts 1
    unfold retry
    omega

/-- An operation that fails twice and succeeds on the third call. -/
def wRetryF : Nat → Except String Nat :=
  fun n => if n = 3 then .ok 42 else .error "transient"

theorem retry_spec_witness :
    ((1:Nat) ≤ 3 ∧ (3:Nat) ≤ 5 + 1 ∧ wRetryF 3 = .ok 42) ∧
    retry wRetryF 5 = (.ok 42, 3, (List.range 2).map (fun i => 2 ^ (1 + i))) :=
  ⟨⟨by omega, by omega, rfl⟩,
    (retry_spec wRetryF 5).1 3 42 (by omega) (by omega) rfl
      (fun i h1 h2 => ⟨"transient", by
        have hne : i ≠ 3 := by omega
        simp [wRetryF, hne]⟩)⟩

lemma filter_upd_map (n v : String) (p : Int) (reg : Option String) :
    ∀ q : List QueueRow,
      (q.filter (fun r => r.name == n && r.version == v)).length ≤ 1 →
      q.any (fun r => r.name == n && r.version == v) = true →
      ∃ i : Int,
        (q.map (fun r : QueueRow =>
          if r.name == n && r.version == v then
            { r with priority := p, registry := reg, attempt := 0 }
          else r)).filter (fun r => r.name == n && r.version == v) =
          [⟨i, n, v, p, 0, reg⟩] := by
  intro q
  induction q with
  | nil => intro _ hany; cases hany
  | cons h t ih =>
    intro hlen hany
    cases hm : (h.name == n && h.version == v)
    · have hlen' :
          (t.filter (fun r => r.name == n && r.version == v)).length ≤ 1 := by
        rwa [List.filter_cons_of_neg (by simp [hm])] at hlen
      have hany' : t.any (fun r => r.name == n && r.version == v) = true := by
        simpa [hm] using hany
      obtain ⟨i, hi⟩ := ih hlen' hany'
      refine ⟨i, ?_⟩
      rw [List.map_cons, List.filter_cons_of_neg (by simp [hm]), hi]
    · have hname : h.name = n ∧ h.version = v := by
        simpa [Bool.and_eq_true, beq_iff_eq] using hm
      have htail : t.filter (fun r => r.name == n && r.version == v) = [] := by
        rw [List.filter_cons_of_pos
          (p := fun r : QueueRow => r.name == n && r.version == v) hm] at hlen
        simp only [List.length_cons] at hlen
        have h0 : (t.filter (fun r => r.name == n && r.version == v)).length = 0 := by
          omega
        exact List.length_eq_zero.mp h0
      have hmapnil : (t.map (fun r : QueueRow =>
          if r.name == n && r.version == v then
            { r with priority := p, registry := reg, attempt := 0 }
          else r)).filter (fun r => r.name == n && r.version == v) = [] := by
        rw [List.filter_eq_nil_iff]
        intro a ha
        obtain ⟨r0, hr0, rfl⟩ := List.mem_map.mp ha
        have hnp := List.filter_eq_nil_iff.mp htail r0 hr0
        intro hcon
        apply hnp
        have hpres := upd_preserves_key n v p reg r0
        rw [hpres.1, hpres.2] at hcon
        exact hcon
      refine ⟨h.id, ?_⟩
      rw [List.map_cons, List.filter_cons_of_pos (by simp [hm]), hmapnil]
      simp [hm, hname.1, hname.2]

lemma add_crate_key_row (st : BQState) (n v : String) (p : Int)
    (reg : Option String)
    (huniq : (st.queue.filter (fun r => r.name == n && r.version == v)).length ≤ 1) :
    ∃ i : Int,
      (add_crate st n v p reg).queue.filter
        (fun r => r.name == n && r.version == v) = [⟨i, n, v, p, 0, reg⟩] := by
  unfold add_crate
  cases hany : st.queue.any (fun r => r.name == n && r.version == v)
  · refine ⟨st.nextId, ?_⟩
    simp only [hany, Bool.false_eq_true, if_false]
    rw [List.filter_append]
    have hnil : st.queue.filter (fun r => r.name == n && r.version == v) = [] := by
      rw [List.filter_eq_nil_iff]
      intro a ha hcon
      have hge : st.queue.any (fun r => r.name == n && r.version == v) = true :=
        List.any_eq_true.mpr ⟨a, ha, hcon⟩
      rw [hany] at hge
      exact Bool.noConfusion hge
    rw [hnil]
    simp
  · have hmain := filter_upd_map n v p reg st.queue huniq hany
    simpa using hmain

/-- C3: upserting the same (name, version) twice, the second time with
priority `p2` and registry `r2`, leaves exactly one row for that key,
carrying `p2`, `r2` and `attempt = 0` — whatever the prior row's attempt
count was — and raises no error (the operation is total). -/
theorem add_crate_upsert (st : BQState) (n v : String) (p1 p2 : Int)
    (r1 r2 : Option String)
    (huniq : (st.queue.filter (fun r => r.name == n && r.version == v)).length ≤ 1) :
    ∃ i : Int,
      (add_crate (add_crate st n v p1 r1) n v p2 r2).queue.filter
        (fun r => r.name == n && r.version == v) = [⟨i, n, v, p2, 0, r2⟩] := by
  obtain ⟨i1, hi1⟩ := add_crate_key_row st n v p1 r1 huniq
  have huniq2 : ((add_crate st n v p1 r1).queue.filter
      (fun r => r.name == n && r.version == v)).length ≤ 1 := by
    rw [hi1]
    simp
  exact add_crate_key_row (add_crate st n v p1 r1) n v p2 r2 huniq2

/-- A queue holding a permanently failed row for the key about to be
re-upserted, mirroring the source test
`test_add_duplicate_resets_attempts_and_priority`. -/
def wState6 : BQState :=
  ⟨[⟨1, "failed_crate", "0.1.1", 0, 99, none⟩], 2, 0, 0, 0, ⟨false, none⟩⟩

theorem add_crate_upsert_witness :
    ((wState6.queue.filter
        (fun r => r.name == "failed_crate" && r.version == "0.1.1")).length ≤ 1) ∧
    (∃ i : Int,
      (add_crate (add_crate wState6 "failed_crate" "0.1.1" 4 (some "alt"))
          "failed_crate" "0.1.1" 9 none).queue.filter
        (fun r => r.name == "failed_crate" && r.version == "0.1.1") =
        [⟨i, "failed_crate", "0.1.1", 9, 0, none⟩]) :=
  ⟨by decide,
    add_crate_upsert wState6 "failed_crate" "0.1.1" 4 9 (some "alt") none (by decide)⟩

lemma countP_reverse {α : Type} (l : List α) (p : α → Bool) :
    l.reverse.countP p = l.countP p := by
  simp [List.countP_eq_length_filter, List.filter_reverse]

/-- C6: `get_new_crates` reports a failing event without aborting the rest of
the batch: every successfully enqueued `Added` release is present in the
final queue whatever other events failed, each failing event adds one
`report_error` call, and — regardless of per-event failures — the new cursor
is persisted both in the config store and in the provider bookmark; the
return value counts the successfully queued `Added` events. -/
theorem get_new_crates_spec (oracle : IngestOracle) (index : IndexModel)
    (st : BQState) :
    (get_new_crates oracle index st).1.config.lastSeenRef = some index.oid ∧
    (get_new_crates oracle index st).2.1 = some index.oid ∧
    (get_new_crates oracle index st).2.2 =
      index.changes.countP (isQueuedAdd oracle) ∧
    (get_new_crates oracle index st).1.reported =
      st.reported + index.changes.countP (eventFails oracle) ∧
    (∀ n v, Change.Added n v ∈ index.changes → oracle.addFails n v = false →
      containsKey (get_new_crates oracle index st).1.queue n v = true) := by
  refine ⟨rfl, rfl, ?_, ?_, ?_⟩
  · show (index.changes.reverse.foldl (applyChange oracle index.repositoryUrl)
        (st, 0)).2 = index.changes.countP (isQueuedAdd oracle)
    rw [foldl_applyChange_count, countP_reverse]
    omega
  · show (index.changes.reverse.foldl (applyChange oracle index.repositoryUrl)
        (st, 0)).1.reported =
      st.reported + index.changes.countP (eventFails oracle)
    rw [foldl_applyChange_reported, countP_reverse]
  · intro n v hmem hfail
    show containsKey (index.changes.reverse.foldl
        (applyChange oracle index.repositoryUrl) (st, 0)).1.queue n v = true
    exact foldl_applyChange_adds oracle index.repositoryUrl
      index.changes.reverse st 0 n v (List.mem_reverse.mpr hmem) hfail

/-- Collaborator oracle for the witness: priority 0 everywhere; enqueueing
fails exactly for version "bad". -/
def wOracle7 : IngestOracle :=
  ⟨fun _ => 0, fun _ v => v == "bad", fun _ _ => false, fun _ => false⟩

def wIndex7 : IndexModel :=
  ⟨[.Added "serde" "1.0.0", .Added "serde" "bad", .Yanked "rand" "0.8.0"],
    "deadbeef", some "registry"⟩

def wState7 : BQState := ⟨[], 0, 0, 0, 0, ⟨false, none⟩⟩

theorem get_new_crates_spec_witness :
    (Change.Added "serde" "1.0.0" ∈ wIndex7.changes ∧
      wOracle7.addFails "serde" "1.0.0" = false) ∧
    containsKey (get_new_crates wOracle7 wIndex7 wState7).1.queue
      "serde" "1.0.0" = true :=
  ⟨⟨by decide, by decide⟩,
    (get_new_crates_spec wOracle7 wIndex7 wState7).2.2.2.2 "serde" "1.0.0"
      (by decide) (by decide)⟩

/-- C7: in `build_next_queue_package`, if the retried toolchain update, or
the retried cache purge after a toolchain change, ultimately fails, then the
queue-pause flag is set, the failure propagates out of the callback so the
job's attempt is incremented, the call still returns `Ok(true)`, and the
build operation is not consulted: the outcome is identical for every build
function. -/
theorem build_env_failure_locks_queue (maxAttempts : Int) (st : BQState)
    (j : QueueRow) (builder : BuilderOracle)
    (hids : (st.queue.map QueueRow.id).Nodup)
    (hsel : selectNext maxAttempts st.queue = some j) :
    (∀ err, (retry builder.toolchain 3).1 = .error err →
      (build_next_queue_package maxAttempts builder st).1.config.queueLocked
          = true ∧
      (∃ r ∈ (build_next_queue_package maxAttempts builder st).1.queue,
        r.id = j.id ∧ r.attempt = j.attempt + 1) ∧
      (build_next_queue_package maxAttempts builder st).2 = .ok true ∧
      (∀ b, build_next_queue_package maxAttempts { builder with build := b } st =
        build_next_queue_package maxAttempts builder st)) ∧
    (∀ err, (retry builder.toolchain 3).1 = .ok true →
      (retry builder.purge 3).1 = .error err →
      (build_next_queue_package maxAttempts builder st).1.config.queueLocked
          = true ∧
      (∃ r ∈ (build_next_queue_package maxAttempts builder st).1.queue,
        r.id = j.id ∧ r.attempt = j.attempt + 1) ∧
      (build_next_queue_package maxAttempts builder st).2 = .ok true ∧
      (∀ b, build_next_queue_package maxAttempts { builder with build := b } st =
        build_next_queue_package maxAttempts builder st)) := by
  have hcb : ∀ (bld : BuilderOracle) (err : String),
      (retry bld.toolchain 3).1 = .error err →
      bnqpCallback bld j.toCrate st =
        (lock { st with reported := st.reported + 1 }, .error err) := by
    intro bld err htc
    unfold bnqpCallback
    rw [htc]
  have hcb2 : ∀ (bld : BuilderOracle) (err : String),
      (retry bld.toolchain 3).1 = .ok true →
      (retry bld.purge 3).1 = .error err →
      bnqpCallback bld j.toCrate st =
        (lock { st with reported := st.reported + 1 }, .error err) := by
    intro bld err htc hp
    unfold bnqpCallback
    rw [htc, hp]
  have hbn : ∀ (bld : BuilderOracle) (err : String),
      bnqpCallback bld j.toCrate st =
        (lock { st with reported := st.reported + 1 }, .error err) →
      build_next_queue_package maxAttempts bld st =
        ({ lock { st with reported := st.reported + 1 } with
            totalBuilds :=
              (lock { st with reported := st.reported + 1 }).totalBuilds + 1,
            queue := st.queue.map (fun r : QueueRow =>
              if r.id == j.id then { r with attempt := r.attempt + 1 } else r),
            failedBuilds :=
              (lock { st with reported := st.reported + 1 }).failedBuilds +
                (if maxAttempts ≤ j.attempt + 1 then 1 else 0),
            reported :=
              (lock { st with reported := st.reported + 1 }).reported + 1 },
          .ok true) := by
    intro bld err hf
    have hout := pnc_err hids hsel hf rfl
    unfold build_next_queue_package
    rw [hout]
    rfl
  have hmem : ({ j with attempt := j.attempt + 1 } : QueueRow) ∈
      st.queue.map (fun r : QueueRow =>
        if r.id == j.id then { r with attempt := r.attempt + 1 } else r) := by
    have hjm : j ∈ st.queue := (selectNext_spec hsel).1.1
    have hbump : ({ j with attempt := j.attempt + 1 } : QueueRow) =
        (fun r : QueueRow =>
          if r.id == j.id then { r with attempt := r.attempt + 1 } else r) j := by
      simp
    rw [hbump]
    exact List.mem_map_of_mem _ hjm
  constructor
  · intro err htc
    have heq := hbn builder err (hcb builder err htc)
    refine ⟨?_, ?_, ?_, ?_⟩
    · rw [heq]
      rfl
    · rw [heq]
      exact ⟨{ j with attempt := j.attempt + 1 }, hmem, rfl, rfl⟩
    · rw [heq]
    · intro b
      rw [hbn { builder with build := b } err
          (hcb { builder with build := b } err htc), heq]
  · intro err htc hp
    have heq := hbn builder err (hcb2 builder err htc hp)
    refine ⟨?_, ?_, ?_, ?_⟩
    · rw [heq]
      rfl
    · rw [heq]
      exact ⟨{ j with attempt := j.attempt + 1 }, hmem, rfl, rfl⟩
    · rw [heq]
    · intro b
      rw [hbn { builder with build := b } err
          (hcb2 { builder with build := b } err htc hp), heq]

/-- A builder whose toolchain update always fails. -/
def wBuilder : BuilderOracle :=
  ⟨fun _ => .error "toolchain update failed",
    fun _ => .ok (), fun _ _ _ => .ok ()⟩

def wRow8 : QueueRow := ⟨11, "queued", "0.3.0", 2, 1, none⟩

def wState8 : BQState := ⟨[wRow8], 12, 4, 0, 2, ⟨false, none⟩⟩

theorem build_env_failure_locks_queue_witness :
    ((wState8.queue.map QueueRow.id).Nodup ∧
      selectNext 5 wState8.queue = some wRow8 ∧
      (retry wBuilder.toolchain 3).1 = .error "toolchain update failed") ∧
    ((build_next_queue_package 5 wBuilder wState8).1.config.queueLocked = true ∧
      (∃ r ∈ (build_next_queue_package 5 wBuilder wState8).1.queue,
        r.id = wRow8.id ∧ r.attempt = wRow8.attempt + 1) ∧
      (build_next_queue_package 5 wBuilder wState8).2 = .ok true ∧
      (∀ b, build_next_queue_package 5 { wBuilder with build := b } wState8 =
        build_next_queue_package 5 wBuilder wState8)) :=
  ⟨⟨by decide, by decide, rfl⟩,
    (build_env_failure_locks_queue 5 wState8 wRow8 wBuilder (by decide)
      (by decide)).1 "toolchain update failed" rfl⟩

/-- A priority policy assigning the same priority `p` to every package, with
no collaborator failures. -/
def wOracle9 (p : Int) : IngestOracle :=
  ⟨fun _ => p, fun _ _ => false, fun _ _ => false, fun _ => false⟩

/-- A batch of three `Added` events for one package name at versions
delivered oldest (`v1`) to newest (`v3`). -/
def wIndex9 (n v1 v2 v3 oid : String) (reg : Option String) : IndexModel :=
  ⟨[.Added n v1, .Added n v2, .Added n v3], oid, reg⟩

def wStart9 : BQState := ⟨[], 0, 0, 0, 0, ⟨false, none⟩⟩

/-- C9: ingesting through `get_new_crates` — which reverses the batch — gives
the newest version the smallest queue id, so with equal priorities
`process_next_crate` selects the newest version first, then the older ones in
descending recency. -/
theorem reversed_batch_newest_selected_first
    (n v1 v2 v3 oid : String) (reg : Option String) (p : Int)
    (maxAttempts : Int)
    (h12 : v1 ≠ v2) (h13 : v1 ≠ v3) (h23 : v2 ≠ v3)
    (hpos : 0 < maxAttempts) :
    (process_next_crate maxAttempts okCallback
        (get_new_crates (wOracle9 p) (wIndex9 n v1 v2 v3 oid reg)
          wStart9).1).processed = some ⟨0, n, v3, p, reg⟩ ∧
    (process_next_crate maxAttempts okCallback
        (process_next_crate maxAttempts okCallback
          (get_new_crates (wOracle9 p) (wIndex9 n v1 v2 v3 oid reg)
            wStart9).1).state).processed = some ⟨1, n, v2, p, reg⟩ ∧
    (process_next_crate maxAttempts okCallback
        (process_next_crate maxAttempts okCallback
          (process_next_crate maxAttempts okCallback
            (get_new_crates (wOracle9 p) (wIndex9 n v1 v2 v3 oid reg)
              wStart9).1).state).state).processed = some ⟨2, n, v1, p, reg⟩ := by
  have e32 : (v3 == v2) = false := beq_eq_false_iff_ne.mpr (Ne.symm h23)
  have e31 : (v3 == v1) = false := beq_eq_false_iff_ne.mpr (Ne.symm h13)
  have e21 : (v2 == v1) = false := beq_eq_false_iff_ne.mpr (Ne.symm h12)
  have hq : (get_new_crates (wOracle9 p) (wIndex9 n v1 v2 v3 oid reg)
      wStart9).1.queue =
      [⟨0, n, v3, p, 0, reg⟩, ⟨1, n, v2, p, 0, reg⟩, ⟨2, n, v1, p, 0, reg⟩] := by
    simp [get_new_crates, set_last_seen_reference, wOracle9, wIndex9, wStart9,
      applyChange, add_crate, e32, e31, e21]
  have hsel1 : selectNext maxAttempts
      [(⟨0, n, v3, p, 0, reg⟩ : QueueRow), ⟨1, n, v2, p, 0, reg⟩,
        ⟨2, n, v1, p, 0, reg⟩] = some ⟨0, n, v3, p, 0, reg⟩ := by
    unfold selectNext pendingFilter
    simp [hpos, selMin, jobLtB]
  have hselA : selectNext maxAttempts
      (get_new_crates (wOracle9 p) (wIndex9 n v1 v2 v3 oid reg)
        wStart9).1.queue = some ⟨0, n, v3, p, 0, reg⟩ := by
    rw [hq]
    exact hsel1
  have out1 := pnc_ok hselA
    (rfl : okCallback (QueueRow.toCrate ⟨0, n, v3, p, 0, reg⟩)
      (get_new_crates (wOracle9 p) (wIndex9 n v1 v2 v3 oid reg) wStart9).1 =
      ((get_new_crates (wOracle9 p) (wIndex9 n v1 v2 v3 oid reg) wStart9).1,
        Except.ok ()))
  have hq2 : (process_next_crate maxAttempts okCallback
      (get_new_crates (wOracle9 p) (wIndex9 n v1 v2 v3 oid reg)
        wStart9).1).state.queue =
      [⟨1, n, v2, p, 0, reg⟩, ⟨2, n, v1, p, 0, reg⟩] := by
    rw [out1]
    dsimp only
    rw [hq]
    simp
  have hsel2 : selectNext maxAttempts
      [(⟨1, n, v2, p, 0, reg⟩ : QueueRow), ⟨2, n, v1, p, 0, reg⟩] =
      some ⟨1, n, v2, p, 0, reg⟩ := by
    unfold selectNext pendingFilter
    simp [hpos, selMin, jobLtB]
  have hselB : selectNext maxAttempts
      (process_next_crate maxAttempts okCallback
        (get_new_crates (wOracle9 p) (wIndex9 n v1 v2 v3 oid reg)
          wStart9).1).state.queue = some ⟨1, n, v2, p, 0, reg⟩ := by
    rw [hq2]
    exact hsel2
  have out2 := pnc_ok hselB
    (rfl : okCallback (QueueRow.toCrate ⟨1, n, v2, p, 0, reg⟩)
      (process_next_crate maxAttempts okCallback
        (get_new_crates (wOracle9 p) (wIndex9 n v1 v2 v3 oid reg)
          wStart9).1).state =
      ((process_next_crate maxAttempts okCallback
        (get_new_crates (wOracle9 p) (wIndex9 n v1 v2 v3 oid reg)
          wStart9).1).state, Except.ok ()))
  have hq3 : (process_next_crate maxAttempts okCallback
      (process_next_crate maxAttempts okCallback
        (get_new_crates (wOracle9 p) (wIndex9 n v1 v2 v3 oid reg)
          wStart9).1).state).state.queue = [⟨2, n, v1, p, 0, reg⟩] := by
    rw [out2]
    dsimp only
    rw [hq2]
    simp
  have hsel3 : selectNext maxAttempts [(⟨2, n, v1, p, 0, reg⟩ : QueueRow)] =
      some ⟨2, n, v1, p, 0, reg⟩ := by
    unfold selectNext pendingFilter
    simp [hpos]
  have hselC : selectNext maxAttempts
      (process_next_crate maxAttempts okCallback
        (process_next_crate maxAttempts okCallback
          (get_new_crates (wOracle9 p) (wIndex9 n v1 v2 v3 oid reg)
            wStart9).1).state).state.queue = some ⟨2, n, v1, p, 0, reg⟩ := by
    rw [hq3]
    exact hsel3
  refine ⟨?_, ?_, ?_⟩
  · rw [pnc_processed, hselA]
    rfl
  · rw [pnc_processed, hselB]
    rfl
  · rw [pnc_processed, hselC]
    rfl

theorem reversed_batch_newest_selected_first_witness :
    (("1.0.0" : String) ≠ "2.0.0" ∧ ("1.0.0" : String) ≠ "3.0.0" ∧
      ("2.0.0" : String) ≠ "3.0.0" ∧ (0 : Int) < 5) ∧
    ((process_next_crate 5 okCallback
        (get_new_crates (wOracle9 0)
          (wIndex9 "pkg" "1.0.0" "2.0.0" "3.0.0" "oid" none)
          wStart9).1).processed = some ⟨0, "pkg", "3.0.0", 0, none⟩ ∧
      (process_next_crate 5 okCallback
        (process_next_crate 5 okCallback
          (get_new_crates (wOracle9 0)
            (wIndex9 "pkg" "1.0.0" "2.0.0" "3.0.0" "oid" none)
            wStart9).1).state).processed = some ⟨1, "pkg", "2.0.0", 0, none⟩ ∧
      (process_next_crate 5 okCallback
        (process_next_crate 5 okCallback
          (process_next_crate 5 okCallback
            (get_new_crates (wOracle9 0)
              (wIndex9 "pkg" "1.0.0" "2.0.0" "3.0.0" "oid" none)
              wStart9).1).state).state).processed =
        some ⟨2, "pkg", "1.0.0", 0, none⟩) :=
  ⟨⟨by decide, by decide, by decide, by decide⟩,
    reversed_batch_newest_selected_first "pkg" "1.0.0" "2.0.0" "3.0.0" "oid"
      none 0 5 (by decide) (by decide) (by decide) (by decide)⟩
